import Mathlib

/-!
Shallow embedding of the alpha-evolve search-and-evaluation engine
(`alphaevolve/core/program_database.py`, `evaluation_manager.py`,
`controller.py`, `llm_interface.py`) and proofs of the specification
claims about it.

Modelling conventions:
* Python `float` score values are modelled as `ℚ`; the sentinel
  `float("-inf")` used as the default of `scores.get(metric, -inf)` is
  modelled by `⊥` in `WithBot ℚ`.
* Python `dict` objects are modelled as association lists that keep
  insertion order; assignment to an existing key replaces in place,
  assignment to a fresh key appends (as CPython dicts do).
* `sorted(..., key=k, reverse=True)` is a stable descending sort; it is
  modelled by `List.insertionSort` with the relation
  `fun a b => k b ≤ k a`, which is likewise stable and descending.
* Sources of nondeterminism (`uuid.uuid4()` draws, LLM outcomes, patch
  outcomes, evaluation results) are passed in explicitly as oracle data.
-/

namespace AlphaEvolve

/-- Association-list lookup, modelling `d.get(k)` / `d[k]` presence. -/
def dictGet {α : Type} (d : List (String × α)) (k : String) : Option α :=
  (d.find? (fun kv => kv.1 == k)).map (·.2)

/-- Lookup with a default, modelling `d.get(k, dflt)`. -/
def dictGetD {α : Type} (d : List (String × α)) (k : String) (dflt : α) : α :=
  (dictGet d k).getD dflt

/-- Dict assignment `d[k] = v`: replace in place if the key exists,
append otherwise (CPython insertion-order semantics). -/
def dictInsert {α : Type} : List (String × α) → String → α → List (String × α)
  | [], k, v => [(k, v)]
  | (k', v') :: rest, k, v =>
      if k' == k then (k, v) :: rest else (k', v') :: dictInsert rest k v

/-- `Program` dataclass of `program_database.py` (the free-form JSON
`metadata` mapping is modelled with string values; the ISO timestamp
string is modelled by a number whose order is creation order). -/
structure Program where
  id : String
  code : String
  scores : List (String × ℚ)
  parent_id : Option String
  timestamp : ℕ
  metadata : List (String × String)
deriving DecidableEq, Repr

instance : Inhabited Program := ⟨⟨"", "", [], none, 0, []⟩⟩

/-- In-memory state of `ProgramDatabase` (the `results_dir` path and the
on-disk store are modelled separately, see the serialization section).
`clock` models the `datetime.datetime.now()` source of timestamps. -/
structure DB where
  population_size : ℕ
  archive_mode : String
  metrics : List String
  programs : List (String × Program)
  clock : ℕ
deriving DecidableEq, Repr

/-- `self.metrics[0]`; the constructor guarantees `metrics` is non-empty
(`metrics or ["fitness"]`), so the default is never used on reachable
states. -/
def primaryMetric (db : DB) : String := db.metrics.headD "fitness"

/-- `self.programs.values()` in dict order. -/
def dbValues (db : DB) : List Program := db.programs.map (·.2)

/-- `p.scores.get(metric, float("-inf"))`. -/
def getScore (p : Program) (metric : String) : WithBot ℚ :=
  match dictGet p.scores metric with
  | some v => (v : WithBot ℚ)
  | none => ⊥

/-- `sorted(ps, key=lambda p: p.scores.get(metric, -inf), reverse=True)`:
stable descending sort by the metric. -/
def sortByMetricDesc (metric : String) (ps : List Program) : List Program :=
  ps.insertionSort (fun a b => getScore b metric ≤ getScore a metric)

/-- The inner dominance test of `_get_pareto_front`: `p2` dominates `p1`
iff on no configured metric is `p2` strictly below `p1` (ties count as
dominating; maximization convention). -/
def dominates (metrics : List String) (p2 p1 : Program) : Bool :=
  metrics.all (fun m => getScore p1 m ≤ getScore p2 m)

/-- First phase of `_get_pareto_front`: ids of records not dominated by
any other record of the population. -/
def paretoFrontIds (db : DB) : List String :=
  ((dbValues db).filter (fun p1 =>
    !((dbValues db).any (fun p2 =>
      p2.id != p1.id && dominates db.metrics p2 p1)))).map (·.id)

/-- Backfill candidates of `_get_pareto_front`: the non-front records
sorted descending by the primary metric. -/
def backfillIds (db : DB) : List String :=
  (sortByMetricDesc (primaryMetric db)
    ((dbValues db).filter (fun p => !((paretoFrontIds db).contains p.id)))).map (·.id)

/-- `_get_pareto_front`: the front, backfilled with next-best records by
primary metric when smaller than the capacity, truncated to capacity. -/
def getParetoFront (db : DB) : List String :=
  let front := paretoFrontIds db
  let filled :=
    if front.length < db.population_size then
      front ++ (backfillIds db).take (db.population_size - front.length)
    else front
  filled.take db.population_size

/-- One bounded, de-duplicating accumulation loop of
`_get_diverse_population` (`if p.id not in seen and len < bound`). -/
def diverseAdd (bound : ℕ) (acc : List String) (ps : List Program) : List String :=
  ps.foldl (fun acc p =>
    if p.id ∉ acc ∧ acc.length < bound then acc ++ [p.id] else acc) acc

/-- `_get_diverse_population`: best half by primary metric, then newest
by timestamp, de-duplicated, up to capacity. -/
def getDiversePopulation (db : DB) : List String :=
  let best := sortByMetricDesc (primaryMetric db) (dbValues db)
  let newest := (dbValues db).insertionSort (fun a b => b.timestamp ≤ a.timestamp)
  let bestHalf := db.population_size / 2
  diverseAdd db.population_size (diverseAdd bestHalf [] best) newest

/-- `_update_population`: when over capacity, compute the ids to keep
according to the archive mode and delete the rest from the in-memory
dict (disk files are left untouched). -/
def updatePopulation (db : DB) : DB :=
  if db.programs.length ≤ db.population_size then db
  else
    let to_keep : List String :=
      if db.archive_mode = "pareto" then getParetoFront db
      else if db.archive_mode = "best" then
        ((sortByMetricDesc (primaryMetric db) (dbValues db)).take db.population_size).map (·.id)
      else getDiversePopulation db
    { db with programs := db.programs.filter (fun kv => decide (kv.1 ∈ to_keep)) }

/-- `add_program` (in-memory effect): build the `Program`, insert it
into the dict keyed by the fresh id, then apply the retention policy.
The fresh uuid is passed in as `newId`; `_save_program`'s disk write is
modelled in the serialization section. -/
def add_program (db : DB) (newId : String) (code : String)
    (scores : List (String × ℚ)) (parent_id : Option String)
    (metadata : List (String × String)) : DB × String :=
  let newProgram : Program :=
    { id := newId, code := code, scores := scores, parent_id := parent_id,
      timestamp := db.clock, metadata := metadata }
  let db' : DB :=
    { db with programs := dictInsert db.programs newId newProgram, clock := db.clock + 1 }
  (updatePopulation db', newId)

/-- `sample_programs`: raises `ValueError` on an empty population;
otherwise picks the parent with probability 7/10 from the top third of
the descending primary-metric sort (when at least 3 records exist) and
otherwise uniformly, then returns up to the top 3 non-parent records as
inspirations. The three `uuid.uuid4().int` draws are passed in as `r`. -/
def sample_programs (db : DB) (r : ℕ × ℕ × ℕ) :
    Except String (Program × List Program) :=
  if db.programs.isEmpty then
    .error "No programs in database to sample from"
  else
    let sortedPrograms := sortByMetricDesc (primaryMetric db) (dbValues db)
    let parent :=
      if 3 ≤ sortedPrograms.length ∧ r.1 % 10 < 7 then
        let top_third := sortedPrograms.take (max 1 (sortedPrograms.length / 3))
        top_third.getD (r.2.1 % top_third.length) default
      else
        sortedPrograms.getD (r.2.2 % sortedPrograms.length) default
    let inspiration_candidates := sortedPrograms.filter (fun p => p.id != parent.id)
    let inspirations :=
      inspiration_candidates.take (min 3 inspiration_candidates.length)
    .ok (parent, inspirations)

/-- `get_best_program`: Python `max(values, key=...)` keeps the first
element among maximal ones. -/
def get_best_program (db : DB) (metric : Option String := none) : Option Program :=
  match dbValues db with
  | [] => none
  | v :: vs =>
      let m := metric.getD (primaryMetric db)
      some (vs.foldl (fun best p =>
        if getScore best m < getScore p m then p else best) v)

/-- `get_best_programs`: top `limit` by the primary metric. -/
def get_best_programs (db : DB) (limit : ℕ := 5) : List Program :=
  (sortByMetricDesc (primaryMetric db) (dbValues db)).take limit

/-! ## Durable storage (`_save_program` / `_load_existing_programs`)

`_save_program` dumps the six record fields into `{id}.json` and the
source text into `{id}.py`; `_load_existing_programs` walks every
`*.json` file of the programs directory, rebuilds a `Program` from each
(skipping any file whose load raises), and keys it by its `id` field.
The model below represents the parsed contents of the `*.json` files
(the standalone `*.py` code copies fail the `endswith(".json")` filter
and are never read back). -/

/-- JSON values, as far as the record format needs them. -/
inductive Json where
  | str (s : String)
  | num (q : ℚ)
  | null
  | obj (kvs : List (String × Json))
deriving Repr

/-- The dictionary `json.dump`ed by `_save_program`. -/
def saveProgramJson (p : Program) : Json :=
  .obj [("id", .str p.id),
        ("code", .str p.code),
        ("scores", .obj (p.scores.map (fun kv => (kv.1, .num kv.2)))),
        ("parent_id", match p.parent_id with
          | some s => .str s
          | none => .null),
        ("timestamp", .num p.timestamp),
        ("metadata", .obj (p.metadata.map (fun kv => (kv.1, .str kv.2))))]

/-- `data["k"]` expecting a string (a missing key or unexpected shape
raises, which the loader's `except` swallows for that file). -/
def jGetStr (kvs : List (String × Json)) (k : String) : Except String String :=
  match dictGet kvs k with
  | some (.str s) => .ok s
  | _ => .error "KeyError"

/-- Conversion of a JSON object into a metric mapping. -/
def scoresOfJson : List (String × Json) → Except String (List (String × ℚ))
  | [] => .ok []
  | kv :: rest =>
      match kv.2, scoresOfJson rest with
      | .num q, .ok tail => .ok ((kv.1, q) :: tail)
      | _, _ => .error "TypeError"

/-- `data["k"]` expecting a metric mapping. -/
def jGetScores (kvs : List (String × Json)) (k : String) :
    Except String (List (String × ℚ)) :=
  match dictGet kvs k with
  | some (.obj svs) => scoresOfJson svs
  | _ => .error "KeyError"

/-- `data.get("parent_id")`: absent or JSON `null` become `None`. -/
def jGetParent (kvs : List (String × Json)) : Except String (Option String) :=
  match dictGet kvs "parent_id" with
  | none => .ok none
  | some .null => .ok none
  | some (.str s) => .ok (some s)
  | some _ => .error "TypeError"

def jGetNat (kvs : List (String × Json)) (k : String) : Except String ℕ :=
  match dictGet kvs k with
  | some (.num q) => if q.den = 1 ∧ 0 ≤ q.num then .ok q.num.toNat else .error "TypeError"
  | _ => .error "KeyError"

/-- Conversion of a JSON object into a string-valued mapping. -/
def metadataOfJson : List (String × Json) → Except String (List (String × String))
  | [] => .ok []
  | kv :: rest =>
      match kv.2, metadataOfJson rest with
      | .str s, .ok tail => .ok ((kv.1, s) :: tail)
      | _, _ => .error "TypeError"

/-- `data.get("metadata", {})`. -/
def jGetMetadata (kvs : List (String × Json)) : Except String (List (String × String)) :=
  match dictGet kvs "metadata" with
  | none => .ok []
  | some (.obj svs) => metadataOfJson svs
  | some _ => .error "TypeError"

/-- The `Program(...)` construction of `_load_existing_programs` from
one parsed JSON file. -/
def parseProgram (j : Json) : Except String Program :=
  match j with
  | .obj kvs => do
      let id ← jGetStr kvs "id"
      let code ← jGetStr kvs "code"
      let scores ← jGetScores kvs "scores"
      let parent_id ← jGetParent kvs
      let timestamp ← jGetNat kvs "timestamp"
      let metadata ← jGetMetadata kvs
      .ok { id := id, code := code, scores := scores, parent_id := parent_id,
            timestamp := timestamp, metadata := metadata }
  | _ => .error "TypeError"

/-- `_load_existing_programs` over the parsed contents of the `*.json`
files (in directory order): each record that loads is inserted into the
population keyed by its `id`; files that fail to load are skipped. -/
def loadExistingPrograms (files : List Json) : List (String × Program) :=
  files.foldl (fun acc j =>
    match parseProgram j with
    | .ok p => dictInsert acc p.id p
    | .error _ => acc) []

/-! ## Evaluation pipeline (`evaluation_manager.py`)

Two complementary pure views of the in-process path are used:
* a timing view (`ScoreCall`): how long the user's `evaluate` call runs
  and what it produces, to settle the timeout claims;
* a working-directory view (`runEvaluateChdir`): how
  `_run_evaluate_with_timeout`'s `try/finally` threads `os.chdir`.
-/

/-- Behaviour of one invocation of the user scoring entry point:
`duration = none` means the call never returns; otherwise it finishes
after `duration` seconds with `result` (`.error` = raised exception,
`.ok none` = returned a non-dict value, `.ok (some d)` = returned the
metric mapping `d`). -/
structure ScoreCall where
  duration : Option ℚ
  result : Except String (Option (List (String × ℚ)))

/-- In-process path (`_evaluate_in_process` ∘ `_run_evaluate_with_timeout`).
`none` means the evaluation call never returns to the caller.  The body
is handed to `loop.run_in_executor` WITHOUT an `asyncio.wait_for` wrap,
so no `asyncio.TimeoutError` is ever raised — the `except
asyncio.TimeoutError` branch returning `{"timeout": 1.0}` is dead code
and the configured timeout plays no role on this path: the call's
duration is ignored whenever the call terminates at all. -/
def evaluateInProcess (call : ScoreCall) : Option (List (String × ℚ)) :=
  match call.duration with
  | none => none
  | some _ =>
      match call.result with
      | .error _ => some [("error", 1)]       -- except Exception: {"error": 1.0}
      | .ok none => some [("error", 1)]       -- non-dict return: {"error": 1.0}
      | .ok (some d) => some d

/-- Subprocess path (`_evaluate_in_subprocess`): `asyncio.wait_for(...,
timeout)` kills the child and returns `{"timeout": 1.0}` whenever the
call runs past the timeout or never returns; an exception inside the
child is converted by the wrapper script into an error mapping printed
on stdout (its string-valued `error_message` companion key lies outside
the numeric score model); a non-dict return is serialized and parsed
back unchanged. -/
def evaluateInSubprocess (timeout : ℚ) (call : ScoreCall) :
    List (String × ℚ) :=
  match call.duration with
  | none => [("timeout", 1)]
  | some d =>
      if timeout < d then [("timeout", 1)]
      else
        match call.result with
        | .error _ => [("error", 1)]
        | .ok none => [("error", 1)]
        | .ok (some m) => m

/-- `_apply_cascade`: walk the `(metric, threshold)` rules in order and
return the singleton of the first metric present and strictly below its
threshold; otherwise return the metrics unchanged. -/
def applyCascade (thresholds : List (String × ℚ)) (metrics : List (String × ℚ)) :
    List (String × ℚ) :=
  match thresholds with
  | [] => metrics
  | (m, t) :: rest =>
      match dictGet metrics m with
      | some v => if v < t then [(m, v)] else applyCascade rest metrics
      | none => applyCascade rest metrics

/-- Post-processing of `evaluate`: `if cascade and self.cascade_thresholds
and metrics: return self._apply_cascade(metrics)` (empty dicts are falsy). -/
def evaluatePost (cascade : Bool) (thresholds metrics : List (String × ℚ)) :
    List (String × ℚ) :=
  if cascade && !thresholds.isEmpty && !metrics.isEmpty then
    applyCascade thresholds metrics
  else metrics

/-- `evaluate`: run the selected path, then the cascade filter.  `none`
means the call to `evaluate` itself never returns. -/
def evaluateModel (use_subprocess cascade : Bool) (thresholds : List (String × ℚ))
    (timeout : ℚ) (call : ScoreCall) : Option (List (String × ℚ)) :=
  let metricsOpt :=
    if use_subprocess then some (evaluateInSubprocess timeout call)
    else evaluateInProcess call
  match metricsOpt with
  | none => none
  | some metrics => some (evaluatePost cascade thresholds metrics)

/-- Terminating outcomes of the user scoring call, for the
working-directory view. -/
inductive CallOutcome where
  | returns (v : List (String × ℚ))
  | nondict
  | raises (e : String)
deriving DecidableEq, Repr

/-- Observable trace of one `_run_evaluate_with_timeout` call. -/
structure ChdirTrace where
  cwdDuringCall : String
  finalCwd : String
  result : Except String (List (String × ℚ))
deriving Repr

/-- Working-directory view of `_run_evaluate_with_timeout`: record the
cwd, `os.chdir(self.working_dir)`, invoke the scoring call (which may
itself move the cwd, modelled by `cwdEffect`, and may succeed, return a
non-dict, or raise), and in the `finally` block `os.chdir(original_dir)`
before the normal return or the exception leaves the frame. -/
def runEvaluateChdir (working_dir : String) (outcome : CallOutcome)
    (cwdEffect : String → String) (cwd0 : String) : ChdirTrace :=
  let original_dir := cwd0                 -- original_dir = os.getcwd()
  let cwdAtCall := working_dir             -- os.chdir(self.working_dir)
  let _cwdLeftByCall := cwdEffect cwdAtCall
  let result : Except String (List (String × ℚ)) :=
    match outcome with
    | .returns v => .ok v
    | .nondict => .ok [("error", 1)]       -- non-dict check inside the try
    | .raises e => .error e                -- propagates through the finally
  let cwdAfterFinally := original_dir      -- finally: os.chdir(original_dir)
  { cwdDuringCall := cwdAtCall, finalCwd := cwdAfterFinally, result := result }

/-! ## Search controller (`controller.py`)

The controller state carries the database, the LLM call counter
(`llm_interface.call_count`, which `generate` increments on entry even
when the call later fails), and the stop-condition configuration.
External nondeterminism of one iteration (the `uuid` draws of
`sample_programs`, the generator outcome, the patcher outcome, the
evaluation result and the fresh program id) is read from an
iteration-indexed oracle. -/

structure CtrlState where
  db : DB
  call_count : ℕ
  max_iterations : ℕ
  budget : List (String × ℚ)
  target_score : List (String × ℚ)
  current_iteration : ℕ
  stopped : Bool
deriving DecidableEq, Repr

/-- `get_resource_usage`: only `llm_calls` is tracked. -/
def resourceUsage (st : CtrlState) (resource : String) : ℚ :=
  if resource = "llm_calls" then (st.call_count : ℚ) else 0

/-- Per-target check `best_program.scores.get(metric, 0) >= target`. -/
def targetMet (best : Program) (mt : String × ℚ) : Bool :=
  mt.2 ≤ dictGetD best.scores mt.1 0

/-- `should_stop`: manual stop, iteration cap, first exceeded budget
resource, or (when a best record exists) the target-score loop, which
returns `False` at the first unmet target and otherwise
`len(self.target_score) > 0`. -/
def shouldStop (st : CtrlState) : Bool :=
  if st.stopped then true
  else if st.max_iterations ≤ st.current_iteration then true
  else if st.budget.any (fun rl => rl.2 ≤ resourceUsage st rl.1) then true
  else
    match get_best_program st.db with
    | some best =>
        if st.target_score.all (targetMet best) then !st.target_score.isEmpty
        else false
    | none => false

/-- External outcomes consumed by one iteration of `Controller.run`. -/
structure IterEvent where
  rand : ℕ × ℕ × ℕ
  gen : Except String String
  patch : Except String String
  evalScores : List (String × ℚ)
  newId : String

/-- `Controller.run`'s while-loop.  The second component is `none` when
the loop exits through `should_stop`, and `some e` when an uncaught
exception `e` propagates out of `run` (aborting the loop): the
`sample_programs` `ValueError` and the generator's terminal
`RuntimeError` occur BEFORE the `try:` of the iteration body, so they
are not caught; patcher/evaluation/recording errors inside the `try:`
are logged and the loop continues.  (`construct_prompt` is pure
templating and the meta-prompt side loop only touches prompt templates;
neither affects the state modelled here.) -/
def runLoop (events : ℕ → IterEvent) (st : CtrlState) : CtrlState × Option String :=
  if h : shouldStop st then (st, none)
  else
    let st1 : CtrlState := { st with current_iteration := st.current_iteration + 1 }
    let ev := events st1.current_iteration
    match sample_programs st1.db ev.rand with
    | .error e => (st1, some e)
    | .ok (parent, _inspirations) =>
        let st2 : CtrlState := { st1 with call_count := st1.call_count + 1 }
        match ev.gen with
        | .error e => (st2, some e)
        | .ok _generated_code =>
            match ev.patch with
            | .error _e => runLoop events st2
            | .ok child_program =>
                let db' := (add_program st2.db ev.newId child_program
                  ev.evalScores (some parent.id) []).1
                runLoop events { st2 with db := db' }
termination_by st.max_iterations - st.current_iteration
decreasing_by
  all_goals
    simp only [Bool.not_eq_true] at h
    have hlt : st.current_iteration < st.max_iterations := by
      by_contra hc
      push_neg at hc
      simp [shouldStop, hc] at h
    omega

/-- Well-formedness established by the `ProgramDatabase` constructor and
preserved by every mutation: the population dict has no duplicate keys
and each record is keyed by its own id. -/
def WfDB (db : DB) : Prop :=
  (db.programs.map Prod.fst).Nodup ∧ ∀ kv ∈ db.programs, kv.1 = kv.2.id

/-- The first `(metric, threshold)` cascade-rule test: the metric is
present in the result and its value is strictly below the threshold. -/
def failsRule (metrics : List (String × ℚ)) (rule : String × ℚ) : Bool :=
  match dictGet metrics rule.1 with
  | some v => v < rule.2
  | none => false

/-! Concrete instances used by witnesses and counterexamples. -/

def progLow : Program := ⟨"idLow", "code low", [("fitness", 1)], none, 0, []⟩
def progHigh : Program := ⟨"idHigh", "code high", [("fitness", 3)], none, 1, []⟩
def progTiedA : Program := ⟨"idTA", "code ta", [("fitness", 2)], none, 2, []⟩
def progTiedB : Program := ⟨"idTB", "code tb", [("fitness", 2)], some "idTA", 3, []⟩

def dbPair : DB := ⟨5, "pareto", ["fitness"], [("idLow", progLow), ("idHigh", progHigh)], 2⟩

def dbTied : DB := ⟨5, "pareto", ["fitness"], [("idTA", progTiedA), ("idTB", progTiedB)], 4⟩

def dbOne : DB := ⟨10, "best", ["fitness"], [("idLow", progLow)], 1⟩

def stGen : CtrlState := ⟨dbOne, 0, 3, [], [], 0, false⟩

def terminalGenMsg : String :=
  "All LLM calls failed after 3 attempts and 0 fallback models"

def evGenFail : ℕ → IterEvent :=
  fun _ => ⟨(0, 0, 0), .error terminalGenMsg, .ok "", [], "idNew"⟩

def divergingCall : ScoreCall := ⟨none, .ok (some [("accuracy", 1)])⟩

def slowCall : ScoreCall := ⟨some 61, .ok (some [("accuracy", 1)])⟩

/-! ## Helper lemmas -/

theorem dictGet_dictInsert_self {α : Type} (l : List (String × α)) (k : String) (v : α) :
    dictGet (dictInsert l k v) k = some v := by
  induction l with
  | nil => simp [dictInsert, dictGet]
  | cons kv rest ih =>
      by_cases hk : kv.1 = k
      · simp [dictInsert, hk, dictGet]
      · cases kv with
        | mk k' v' =>
            simp only at hk
            simp [dictInsert, hk, dictGet, List.find?] at ih ⊢
            simpa [dictGet] using ih

theorem dictGet_dictInsert_ne {α : Type} (l : List (String × α)) (k k' : String) (v : α)
    (h : k' ≠ k) : dictGet (dictInsert l k' v) k = dictGet l k := by
  have hbeq : (k' == k) = false := by simp [h]
  induction l with
  | nil => simp [dictInsert, dictGet, List.find?, hbeq]
  | cons kv rest ih =>
      cases kv with
      | mk k₀ v₀ =>
          by_cases hk : k₀ = k'
          · subst hk
            simp [dictInsert, dictGet, List.find?, hbeq]
          · have hne : (k₀ == k') = false := by simp [hk]
            simp only [dictInsert, hne, cond_false, if_false, Bool.false_eq_true]
            simp only [dictGet, List.find?] at ih ⊢
            cases hbk : (k₀ == k) with
            | true => simp
            | false => simpa [hbk] using ih

theorem map_fst_dictInsert {α : Type} (l : List (String × α)) (k : String) (v : α) :
    (dictInsert l k v).map Prod.fst =
      if k ∈ l.map Prod.fst then l.map Prod.fst else l.map Prod.fst ++ [k] := by
  induction l with
  | nil => simp [dictInsert]
  | cons kv rest ih =>
      cases kv with
      | mk k₀ v₀ =>
          by_cases hk : k₀ = k
          · simp [dictInsert, hk]
          · simp only [dictInsert, beq_iff_eq, hk, if_false, List.map_cons, ih]
            by_cases hmem : k ∈ rest.map Prod.fst <;>
              simp [hmem, Ne.symm hk, List.mem_cons]

theorem nodup_keys_dictInsert {α : Type} (l : List (String × α)) (k : String) (v : α)
    (h : (l.map Prod.fst).Nodup) : ((dictInsert l k v).map Prod.fst).Nodup := by
  rw [map_fst_dictInsert]
  by_cases hmem : k ∈ l.map Prod.fst
  · simpa [hmem]
  · simp [hmem, List.nodup_append, h]

/-- A list of distinct keys filtered from a no-duplicate-keys dict by
membership in `ks` has at most `ks.length` entries. -/
theorem length_filter_mem_le {α : Type} (l : List (String × α)) (ks : List String)
    (hnd : (l.map Prod.fst).Nodup) :
    (l.filter (fun kv => decide (kv.1 ∈ ks))).length ≤ ks.length := by
  set f := l.filter (fun kv => decide (kv.1 ∈ ks)) with hf
  have hsub : List.Sublist f l := List.filter_sublist l
  have hkeys_nodup : (f.map Prod.fst).Nodup :=
    List.Nodup.sublist (hsub.map Prod.fst) hnd
  have hkeys_sub : f.map Prod.fst ⊆ ks := by
    intro x hx
    rcases List.mem_map.mp hx with ⟨kv, hkv, hfst⟩
    have := List.of_mem_filter hkv
    subst hfst
    exact of_decide_eq_true this
  calc f.length = (f.map Prod.fst).length := (List.length_map _ _).symm
    _ = (f.map Prod.fst).toFinset.card := (List.toFinset_card_of_nodup hkeys_nodup).symm
    _ ≤ ks.toFinset.card := by
        apply Finset.card_le_card
        intro x hx
        rw [List.mem_toFinset] at hx ⊢
        exact hkeys_sub hx
    _ ≤ ks.length := List.toFinset_card_le ks

theorem diverseAdd_length_le (b : ℕ) (ps : List Program) (acc : List String)
    (h : acc.length ≤ b) : (diverseAdd b acc ps).length ≤ b := by
  induction ps generalizing acc with
  | nil => simpa [diverseAdd]
  | cons p rest ih =>
      simp only [diverseAdd, List.foldl_cons] at ih ⊢
      by_cases hc : p.id ∉ acc ∧ acc.length < b
      · exact ih _ (by simp [hc]; omega)
      · exact ih _ (by simp [hc]; omega)

/-! ## Claim theorems -/

/-- C7: `sample_programs` on an archive whose population is empty fails
with the empty-population `ValueError` (for every source of randomness
and every configuration); it never returns a parent. -/
theorem C7_sample_empty_population_fails (cap : ℕ) (mode : String)
    (metrics : List String) (clock : ℕ) (r : ℕ × ℕ × ℕ) :
    sample_programs ⟨cap, mode, metrics, [], clock⟩ r =
      .error "No programs in database to sample from" := rfl

/-- C9: for every in-process evaluation, the working directory seen by
the scoring call is the configured one, and after the call — whether it
returns a metric mapping, returns a malformed (non-dict) value, or
raises, and whatever it does to the working directory itself — the
`finally` block restores the working directory to its prior value, with
any exception still propagating to the caller. -/
theorem C9_chdir_switched_and_restored (working_dir : String) (outcome : CallOutcome)
    (cwdEffect : String → String) (cwd0 : String) :
    (runEvaluateChdir working_dir outcome cwdEffect cwd0).cwdDuringCall = working_dir ∧
    (runEvaluateChdir working_dir outcome cwdEffect cwd0).finalCwd = cwd0 :=
  ⟨rfl, rfl⟩

/-- C2 (code bug): the timeout is enforced only on the subprocess path.
In-process, a scoring call that never returns makes `evaluate` block
forever (no `{"timeout": 1.0}` is ever produced), and a call that
returns only after the configured 60-second timeout still has its
result returned as-is; the same two behaviours under the subprocess
path both yield the `{"timeout": 1.0}` sentinel. -/
theorem C2_inprocess_timeout_not_enforced :
    evaluateModel false true [] 60 divergingCall = none ∧
    evaluateModel false true [] 60 slowCall = some [("accuracy", 1)] ∧
    evaluateModel true true [] 60 divergingCall = some [("timeout", 1)] ∧
    evaluateModel true true [] 60 slowCall = some [("timeout", 1)] := by
  refine ⟨rfl, rfl, rfl, ?_⟩
  have h61 : (60 : ℚ) < 61 := by norm_num
  simp [evaluateModel, evaluateInSubprocess, slowCall, evaluatePost, h61]

theorem applyCascade_spec (th ms : List (String × ℚ)) :
    (∀ m t v, th.find? (failsRule ms) = some (m, t) → dictGet ms m = some v →
      applyCascade th ms = [(m, v)]) ∧
    (th.find? (failsRule ms) = none → applyCascade th ms = ms) := by
  induction th with
  | nil => simp [applyCascade]
  | cons rule rest ih =>
      cases rule with
      | mk m₁ t₁ =>
          by_cases hfail : failsRule ms (m₁, t₁) = true
          · constructor
            · intro m t v hfind hget
              rw [List.find?_cons_of_pos _ hfail] at hfind
              simp only [Option.some.injEq, Prod.mk.injEq] at hfind
              obtain ⟨hm, _ht⟩ := hfind
              subst hm
              simp only [failsRule] at hfail
              cases hms : dictGet ms m₁ with
              | none => rw [hms] at hfail; cases hfail
              | some v₀ =>
                  rw [hms] at hfail
                  rw [hms] at hget
                  injection hget with hv
                  subst hv
                  simp only [applyCascade, hms]
                  rw [if_pos (of_decide_eq_true hfail)]
            · intro hfind
              rw [List.find?_cons_of_pos _ hfail] at hfind
              cases hfind
          · have hstep : applyCascade ((m₁, t₁) :: rest) ms = applyCascade rest ms := by
              simp only [applyCascade]
              cases hms : dictGet ms m₁ with
              | none => rfl
              | some v₀ =>
                  have hv : ¬ v₀ < t₁ := by
                    intro hlt
                    exact hfail (by simp [failsRule, hms, hlt])
                  show (if v₀ < t₁ then [(m₁, v₀)] else applyCascade rest ms) =
                    applyCascade rest ms
                  rw [if_neg hv]
            constructor
            · intro m t v hfind hget
              rw [List.find?_cons_of_neg _ hfail] at hfind
              rw [hstep]
              exact ih.1 m t v hfind hget
            · intro hfind
              rw [List.find?_cons_of_neg _ hfail] at hfind
              rw [hstep]
              exact ih.2 hfind

theorem find?_failsRule_nil_none (th : List (String × ℚ)) :
    th.find? (failsRule []) = none := by
  induction th with
  | nil => rfl
  | cons rule rest ih => simp [List.find?_cons, failsRule, dictGet, ih]

/-- C4: with cascading enabled, if the ordered cascade rules contain one
whose metric is present in the result strictly below its threshold, then
`evaluate` returns exactly the singleton of the first such metric and
its value; if every rule passes, the full mapping is returned unchanged;
with cascading disabled the full mapping is always returned. -/
theorem C4_cascade_filter (th ms : List (String × ℚ)) :
    (∀ m t v, th.find? (failsRule ms) = some (m, t) → dictGet ms m = some v →
      evaluatePost true th ms = [(m, v)]) ∧
    (th.find? (failsRule ms) = none → evaluatePost true th ms = ms) ∧
    evaluatePost false th ms = ms := by
  refine ⟨?_, ?_, by simp [evaluatePost]⟩
  · intro m t v hfind hget
    have hth : th ≠ [] := by rintro rfl; simp at hfind
    have hms : ms ≠ [] := by
      rintro rfl
      rw [find?_failsRule_nil_none] at hfind
      cases hfind
    rw [evaluatePost, if_pos (by simp [hth, hms, List.isEmpty_iff])]
    exact (applyCascade_spec th ms).1 m t v hfind hget
  · intro hfind
    by_cases hth : th = []
    · simp [hth, evaluatePost]
    · by_cases hms : ms = []
      · simp [hms, evaluatePost]
      · rw [evaluatePost, if_pos (by simp [hth, hms, List.isEmpty_iff])]
        exact (applyCascade_spec th ms).2 hfind

theorem getParetoFront_length_le (db : DB) :
    (getParetoFront db).length ≤ db.population_size := by
  unfold getParetoFront
  exact List.length_take_le _ _

theorem getDiversePopulation_length_le (db : DB) :
    (getDiversePopulation db).length ≤ db.population_size := by
  unfold getDiversePopulation
  apply diverseAdd_length_le
  calc (diverseAdd (db.population_size / 2) []
          (sortByMetricDesc (primaryMetric db) (dbValues db))).length
      ≤ db.population_size / 2 := diverseAdd_length_le _ _ _ (by simp)
    _ ≤ db.population_size := Nat.div_le_self _ _

theorem updatePopulation_length_le (db : DB)
    (hnd : (db.programs.map Prod.fst).Nodup) :
    ((updatePopulation db).programs).length ≤ db.population_size := by
  unfold updatePopulation
  split
  · next hle => exact hle
  · next hgt =>
      simp only
      apply le_trans (length_filter_mem_le _ _ hnd)
      by_cases hp : db.archive_mode = "pareto"
      · simpa [hp] using getParetoFront_length_le db
      · by_cases hb : db.archive_mode = "best"
        · simp only [hp, if_false, hb, if_true]
          calc (((sortByMetricDesc (primaryMetric db) (dbValues db)).take
                  db.population_size).map (·.id)).length
              = ((sortByMetricDesc (primaryMetric db) (dbValues db)).take
                  db.population_size).length := List.length_map _ _
            _ ≤ db.population_size := List.length_take_le _ _
        · simpa [hp, hb] using getDiversePopulation_length_le db

/-- C3: whatever the archive state, the retention policy, and the added
record, the in-memory population holds at most `population_size` records
after `add_program` returns (the population dict having no duplicate
keys, as every reachable state does). -/
theorem C3_add_program_capacity (db : DB) (newId code : String)
    (scores : List (String × ℚ)) (parent_id : Option String)
    (metadata : List (String × String))
    (hnd : (db.programs.map Prod.fst).Nodup) :
    ((add_program db newId code scores parent_id metadata).1.programs).length ≤
      db.population_size := by
  unfold add_program
  simp only
  exact updatePopulation_length_le _ (nodup_keys_dictInsert _ _ _ hnd)

/-- C3 witness: adding a record to a two-record pareto archive with
capacity 5 keeps the population within capacity. -/
theorem C3_add_program_capacity_witness :
    ((add_program dbPair "idNew" "c" [("fitness", 2)] none []).1.programs).length ≤
      dbPair.population_size :=
  C3_add_program_capacity dbPair "idNew" "c" [("fitness", 2)] none [] (by decide)

theorem dbValues_ids_nodup (db : DB) (hwf : WfDB db) :
    ((dbValues db).map Program.id).Nodup := by
  obtain ⟨hnd, hkeys⟩ := hwf
  have heq : (dbValues db).map Program.id = db.programs.map Prod.fst := by
    unfold dbValues
    rw [List.map_map]
    exact List.map_congr_left (fun kv hkv => (hkeys kv hkv).symm)
  rw [heq]; exact hnd

theorem values_inj (db : DB) (hwf : WfDB db) {p q : Program}
    (hp : p ∈ dbValues db) (hq : q ∈ dbValues db) (hid : p.id = q.id) : p = q :=
  List.inj_on_of_nodup_map (dbValues_ids_nodup db hwf) hp hq hid

/-- A record with a dominator elsewhere in the population is cut from
the non-dominated set. -/
theorem not_in_front_of_dominator (db : DB) (hwf : WfDB db) (p q : Program)
    (hp : p ∈ dbValues db) (hq : q ∈ dbValues db) (hne : q.id ≠ p.id)
    (hdom : dominates db.metrics q p = true) : p.id ∉ paretoFrontIds db := by
  intro hmem
  unfold paretoFrontIds at hmem
  rcases List.mem_map.mp hmem with ⟨p', hp', hid⟩
  have hp'v : p' ∈ dbValues db := List.mem_of_mem_filter hp'
  have hfilter := List.of_mem_filter hp'
  have hpp : p' = p := values_inj db hwf hp'v hp hid
  subst hpp
  simp only [Bool.not_eq_true', List.any_eq_false] at hfilter
  exact hfilter q hq (by simp [hne, hdom])

theorem getParetoFront_eq (db : DB) :
    getParetoFront db =
      (if (paretoFrontIds db).length < db.population_size then
        paretoFrontIds db ++
          (backfillIds db).take (db.population_size - (paretoFrontIds db).length)
      else paretoFrontIds db).take db.population_size := rfl

/-- Survivors of the pareto policy that are not front members entered
through the primary-metric backfill. -/
theorem mem_backfill_of_mem_full_not_front (db : DB) (x : String)
    (hx : x ∈ getParetoFront db) (hnf : x ∉ paretoFrontIds db) :
    x ∈ backfillIds db := by
  rw [getParetoFront_eq] at hx
  have hx' := List.mem_of_mem_take hx
  by_cases hlt : (paretoFrontIds db).length < db.population_size
  · rw [if_pos hlt] at hx'
    rcases List.mem_append.mp hx' with h | h
    · exact absurd h hnf
    · exact List.mem_of_mem_take h
  · rw [if_neg hlt] at hx'
    exact absurd hx' hnf

/-- C5: in a well-formed population, a record strictly dominated by a
surviving record on every configured metric is not a member of the
computed non-dominated pareto front (the front being within capacity).
The constructor guarantees the configured metric list is non-empty. -/
theorem C5_strictly_dominated_not_in_front (db : DB) (p q : Program)
    (hwf : WfDB db) (hm : db.metrics ≠ [])
    (hp : p ∈ dbValues db) (hq : q ∈ dbValues db)
    (hdom : ∀ m ∈ db.metrics, getScore p m < getScore q m)
    (hfront : (paretoFrontIds db).length ≤ db.population_size)
    (hsurv : q.id ∈ getParetoFront db) :
    p.id ∉ paretoFrontIds db := by
  have hpq : p ≠ q := by
    obtain ⟨m, hmem⟩ := List.exists_mem_of_ne_nil _ hm
    intro he
    rw [he] at hdom
    exact lt_irrefl _ (hdom m hmem)
  have hne : q.id ≠ p.id := by
    intro h
    exact hpq (values_inj db hwf hp hq h.symm)
  apply not_in_front_of_dominator db hwf p q hp hq hne
  unfold dominates
  rw [List.all_eq_true]
  intro m hmem
  exact decide_eq_true (le_of_lt (hdom m hmem))

/-- C5 witness: a two-record pareto archive where `idHigh` strictly
dominates `idLow`; `idLow` is not in the front. -/
theorem C5_strictly_dominated_not_in_front_witness :
    "idLow" ∉ paretoFrontIds dbPair :=
  C5_strictly_dominated_not_in_front dbPair progLow progHigh
    (by constructor <;> decide) (by decide) (by decide) (by decide)
    (by decide) (by decide) (by decide)

/-- C10 (implicit): two distinct records with identical scores on every
configured metric each dominate the other under the tie-counting
dominance test, so neither belongs to the computed non-dominated set;
if either survives the pareto policy it did so through the
primary-metric backfill, never as a front member. -/
theorem C10_tied_records_excluded_from_front (db : DB) (p q : Program)
    (hwf : WfDB db)
    (hp : p ∈ dbValues db) (hq : q ∈ dbValues db)
    (hne : p.id ≠ q.id)
    (hties : ∀ m ∈ db.metrics, getScore p m = getScore q m) :
    p.id ∉ paretoFrontIds db ∧ q.id ∉ paretoFrontIds db ∧
    (p.id ∈ getParetoFront db → p.id ∈ backfillIds db) ∧
    (q.id ∈ getParetoFront db → q.id ∈ backfillIds db) := by
  have hdq : dominates db.metrics q p = true := by
    unfold dominates
    rw [List.all_eq_true]
    intro m hmem
    exact decide_eq_true (le_of_eq (hties m hmem))
  have hdp : dominates db.metrics p q = true := by
    unfold dominates
    rw [List.all_eq_true]
    intro m hmem
    exact decide_eq_true (ge_of_eq (hties m hmem))
  have h1 : p.id ∉ paretoFrontIds db :=
    not_in_front_of_dominator db hwf p q hp hq (Ne.symm hne) hdq
  have h2 : q.id ∉ paretoFrontIds db :=
    not_in_front_of_dominator db hwf q p hq hp hne hdp
  exact ⟨h1, h2,
    fun hx => mem_backfill_of_mem_full_not_front db _ hx h1,
    fun hx => mem_backfill_of_mem_full_not_front db _ hx h2⟩

/-- C10 witness: two records tied on the single metric; neither is a
front member and the one that survives does so via backfill. -/
theorem C10_tied_records_excluded_from_front_witness :
    "idTA" ∉ paretoFrontIds dbTied ∧ "idTB" ∉ paretoFrontIds dbTied ∧
    ("idTA" ∈ getParetoFront dbTied → "idTA" ∈ backfillIds dbTied) ∧
    ("idTB" ∈ getParetoFront dbTied → "idTB" ∈ backfillIds dbTied) :=
  C10_tied_records_excluded_from_front dbTied progTiedA progTiedB
    (by constructor <;> decide) (by decide) (by decide) (by decide) (by decide)

/-- C4 witness: the spec's own end-to-end scenario — thresholds
`{first: 7/10, second: 7/10, third: 5/10}` against the result
`{first: 6/10, second: 8/10, third: 4/10}` cascades to exactly
`{first: 6/10}`, and without cascading the full mapping comes back. -/
theorem C4_cascade_filter_witness :
    evaluatePost true [("first", 7/10), ("second", 7/10), ("third", 5/10)]
      [("first", 6/10), ("second", 8/10), ("third", 4/10)] = [("first", 6/10)] ∧
    evaluatePost false [("first", 7/10), ("second", 7/10), ("third", 5/10)]
      [("first", 6/10), ("second", 8/10), ("third", 4/10)] =
      [("first", 6/10), ("second", 8/10), ("third", 4/10)] := by
  constructor
  · exact (C4_cascade_filter _ _).1 "first" (7/10) (6/10) (by norm_num [List.find?, failsRule, dictGet]) (by norm_num [dictGet])
  · exact (C4_cascade_filter _ _).2.2

/-- C6: when no other stop condition applies and a best record exists,
the target-score condition fires exactly when the target map is
non-empty and every listed metric of the best record (absent metrics
reading as 0, per `scores.get(metric, 0)`) meets or exceeds its target;
partial satisfaction never stops the run. -/
theorem C6_target_stop_iff (st : CtrlState) (best : Program)
    (h1 : st.stopped = false)
    (h2 : st.current_iteration < st.max_iterations)
    (h3 : ∀ rl ∈ st.budget, resourceUsage st rl.1 < rl.2)
    (h4 : get_best_program st.db = some best) :
    (shouldStop st = true ↔
      st.target_score ≠ [] ∧
        ∀ mt ∈ st.target_score, mt.2 ≤ dictGetD best.scores mt.1 0) := by
  unfold shouldStop
  rw [if_neg (by simp [h1]), if_neg (not_le.mpr h2), if_neg ?budget, h4]
  case budget =>
    simp only [List.any_eq_true, decide_eq_true_eq, not_exists, not_and]
    intro rl hrl
    exact not_le.mpr (h3 rl hrl)
  show (if st.target_score.all (targetMet best) = true then !st.target_score.isEmpty
      else false) = true ↔
    st.target_score ≠ [] ∧ ∀ mt ∈ st.target_score, mt.2 ≤ dictGetD best.scores mt.1 0
  by_cases hall : st.target_score.all (targetMet best) = true
  · rw [if_pos hall]
    simp only [List.all_eq_true, targetMet, decide_eq_true_eq] at hall
    constructor
    · intro hne
      refine ⟨?_, hall⟩
      simpa [List.isEmpty_iff] using hne
    · rintro ⟨hne, _⟩
      simpa [List.isEmpty_iff] using hne
  · rw [if_neg hall]
    simp only [Bool.false_eq_true, false_iff, not_and]
    intro _ hmet
    apply hall
    simp only [List.all_eq_true, targetMet, decide_eq_true_eq]
    exact hmet

/-- C6 witness: best record has fitness 3 against target 2 with no
other stop condition active, so the run stops on target scores. -/
theorem C6_target_stop_iff_witness :
    shouldStop ⟨dbPair, 0, 5, [("llm_calls", 10)], [("fitness", 2)], 0, false⟩ = true :=
  (C6_target_stop_iff ⟨dbPair, 0, 5, [("llm_calls", 10)], [("fitness", 2)], 0, false⟩
    progHigh rfl (by decide)
    (by intro rl hrl; fin_cases hrl; norm_num [resourceUsage])
    (by decide)).mpr (by constructor; · decide
                         · intro mt hmt; fin_cases hmt; norm_num [dictGetD, dictGet, progHigh])

theorem scoresOfJson_map (svs : List (String × ℚ)) :
    scoresOfJson (svs.map (fun kv => (kv.1, Json.num kv.2))) = .ok svs := by
  induction svs with
  | nil => rfl
  | cons kv rest ih =>
      cases kv with
      | mk k v => simp [scoresOfJson, ih]

theorem metadataOfJson_map (mvs : List (String × String)) :
    metadataOfJson (mvs.map (fun kv => (kv.1, Json.str kv.2))) = .ok mvs := by
  induction mvs with
  | nil => rfl
  | cons kv rest ih =>
      cases kv with
      | mk k v => simp [metadataOfJson, ih]

/-- One saved record parses back to exactly the record that was saved. -/
theorem parseProgram_saveProgramJson (p : Program) :
    parseProgram (saveProgramJson p) = .ok p := by
  obtain ⟨id, code, scores, parent_id, timestamp, metadata⟩ := p
  have hts : ((timestamp : ℚ).den = 1 ∧ 0 ≤ (timestamp : ℚ).num) := by
    constructor
    · exact Rat.den_natCast timestamp
    · rw [Rat.num_natCast]; exact Int.ofNat_nonneg timestamp
  cases parent_id with
  | none =>
      simp [parseProgram, saveProgramJson, jGetStr, jGetScores, jGetParent, jGetNat,
        jGetMetadata, dictGet, List.find?, scoresOfJson_map, metadataOfJson_map,
        hts, Rat.num_natCast]
      rfl
  | some pid =>
      simp [parseProgram, saveProgramJson, jGetStr, jGetScores, jGetParent, jGetNat,
        jGetMetadata, dictGet, List.find?, scoresOfJson_map, metadataOfJson_map,
        hts, Rat.num_natCast]
      rfl

theorem foldl_insert_get_of_not_mem (ps : List Program)
    (acc : List (String × Program)) (k : String) (hk : k ∉ ps.map Program.id) :
    dictGet (ps.foldl (fun acc q => dictInsert acc q.id q) acc) k = dictGet acc k := by
  induction ps generalizing acc with
  | nil => rfl
  | cons q rest ih =>
      simp only [List.map_cons, List.mem_cons, not_or] at hk
      rw [List.foldl_cons, ih _ hk.2]
      exact dictGet_dictInsert_ne acc k q.id q (Ne.symm hk.1)

theorem foldl_insert_get_mem (ps : List Program)
    (acc : List (String × Program)) (p : Program)
    (hnd : (ps.map Program.id).Nodup) (hp : p ∈ ps) :
    dictGet (ps.foldl (fun acc q => dictInsert acc q.id q) acc) p.id = some p := by
  induction ps generalizing acc with
  | nil => cases hp
  | cons q rest ih =>
      simp only [List.map_cons, List.nodup_cons] at hnd
      rcases List.mem_cons.mp hp with rfl | hmem
      · rw [List.foldl_cons, foldl_insert_get_of_not_mem _ _ _ hnd.1,
          dictGet_dictInsert_self]
      · exact ih _ hnd.2 hmem

theorem load_map_save (ps : List Program) :
    loadExistingPrograms (ps.map saveProgramJson) =
      ps.foldl (fun acc q => dictInsert acc q.id q) [] := by
  unfold loadExistingPrograms
  rw [List.foldl_map]
  apply List.foldl_ext
  intro acc q _hq
  rw [parseProgram_saveProgramJson]

/-- C8: every record written by `Add` (`_save_program` emits one JSON
file per record) is reloaded by a fresh archive over the same results
directory as a record equal to the original — in particular with
identical `id`, `code`, `scores` and `parent_id`.  Distinctness of the
ids is guaranteed by their uuid construction. -/
theorem C8_save_load_roundtrip (ps : List Program) (p : Program)
    (hnd : (ps.map Program.id).Nodup) (hp : p ∈ ps) :
    dictGet (loadExistingPrograms (ps.map saveProgramJson)) p.id = some p := by
  rw [load_map_save]
  exact foldl_insert_get_mem ps [] p hnd hp

/-- C8 witness: a two-record store reloads the first record intact. -/
theorem C8_save_load_roundtrip_witness :
    dictGet (loadExistingPrograms ([progLow, progHigh].map saveProgramJson))
      progLow.id = some progLow :=
  C8_save_load_roundtrip [progLow, progHigh] progLow (by decide) (by decide)

/-- C1 counterexample: a concrete run over a one-record archive whose
generator fails terminally at the first iteration.  `run` propagates the
terminal `RuntimeError` (second component `some ...`), so the run loop
IS aborted by a generation failure, at iteration 1 of a 3-iteration
budget — contradicting the claim that the Controller catches it and the
loop is never aborted.  (The archive is indeed left unmodified.) -/
theorem C1_generation_failure_counterexample :
    (runLoop evGenFail stGen).2 = some terminalGenMsg ∧
    (runLoop evGenFail stGen).1.current_iteration = 1 ∧
    (runLoop evGenFail stGen).1.db.programs = stGen.db.programs := by
  rw [runLoop]
  norm_num [stGen, dbOne, evGenFail, shouldStop, get_best_program, dbValues,
    resourceUsage, sample_programs, progLow]

/-- C1 (amended): when the generator fails terminally in an iteration,
the archive is not modified — but the error is NOT caught by the
Controller: `generate` is called before the iteration's `try:` block, so
the exception propagates out of `run` and aborts the loop (with the
iteration counter and LLM call counter already incremented).  Only
failures after generation (patching, evaluation, recording) are caught
and logged with the loop proceeding. -/
theorem C1_generation_failure_aborts_run (events : ℕ → IterEvent)
    (st : CtrlState) (e : String)
    (h1 : shouldStop st = false)
    (h2 : st.db.programs ≠ [])
    (h3 : (events (st.current_iteration + 1)).gen = .error e) :
    runLoop events st =
      ({ st with current_iteration := st.current_iteration + 1,
                 call_count := st.call_count + 1 }, some e) := by
  rw [runLoop]
  rw [dif_neg (by simp [h1])]
  have hsample : ∃ pr, sample_programs st.db
      (events (st.current_iteration + 1)).rand = .ok pr := by
    unfold sample_programs
    rw [if_neg (by simpa [List.isEmpty_iff] using h2)]
    exact ⟨_, rfl⟩
  obtain ⟨⟨parent, insp⟩, hpr⟩ := hsample
  simp only [hpr, h3]

/-- C1 witness for the amended statement, at the counterexample's
concrete run configuration. -/
theorem C1_generation_failure_aborts_run_witness :
    runLoop evGenFail stGen =
      ({ stGen with current_iteration := 1, call_count := 1 }, some terminalGenMsg) :=
  C1_generation_failure_aborts_run evGenFail stGen terminalGenMsg
    (by decide) (by decide) rfl

end AlphaEvolve
